import Mathlib

/-!
Verification of the `sarchive` solid-archive reader/writer core.

This file shallowly embeds the Go sources of the repository:
bytes are `Nat` values (< 256 in every reachable state), byte streams are
`List Nat`, fallible operations return `Except String _` or `Option _`, and
stateful readers/writers are modelled by explicit state passing.  Each
definition is translated from the named Go function.
-/

deriving instance DecidableEq for Except

namespace Sarchive

/-! ## Varints (`encoding/binary`: `PutUvarint` / `ReadUvarint`)

`BlockHeader.Write` and `BlockHeader.Read` in `sar/sardata/block.go` frame the
block length with Go's unsigned LEB128 varints, so we model the two stdlib
routines byte-for-byte.  `putUvarint x` is the list of bytes `PutUvarint`
stores for `x < 2^64`. -/

def putUvarint (x : Nat) : List Nat :=
  if x < 0x80 then [x]
  else (x % 0x80 + 0x80) :: putUvarint (x / 0x80)
decreasing_by
  exact Nat.div_lt_self (by omega) (by omega)

/-- One step of `binary.ReadUvarint`'s loop.  State: remaining input bytes,
accumulator `x`, shift `s`, loop index `i` (`MaxVarintLen64 = 10`).  After ten
continuation bytes the loop exits with an overflow error (`none`).  Go
accumulates with `x |= uint64(b&0x7f) << s` in `uint64`; because the bits
already in `x` always lie strictly below `2^s`, the bitwise or equals plain
addition, and on every *successful* return the sum is below `2^64`, so no
modular truncation is observable; we therefore write the addition directly. -/
def readUvarintGo : List Nat → Nat → Nat → Nat → Option (Nat × List Nat)
  | bytes, x, s, i =>
    if i = 10 then none
    else
      match bytes with
      | [] => none
      | b :: rest =>
        if b < 0x80 then
          if i = 9 ∧ b > 1 then none
          else some (x + b * 2 ^ s, rest)
        else readUvarintGo rest (x + b % 0x80 * 2 ^ s) (s + 7) (i + 1)

/-- `binary.ReadUvarint` on a byte stream. -/
def readUvarint (input : List Nat) : Option (Nat × List Nat) :=
  readUvarintGo input 0 0 0

/-! ## Magic (`sar/sardata/magic.go`) -/

/-- `Magic = "SAR"`, `Version = 1`: the byte values of the envelope. -/
def magicBytes : List Nat := [83, 65, 82]

def formatVersion : Nat := 1

/-- `ReadMagic`: `io.ReadFull` of 4 bytes (short read is an unexpected-EOF
error), compare the first three against `"SAR"`, then require the version byte
to be `≤ Version`.  Returns the version and the unread remainder. -/
def ReadMagic (input : List Nat) : Except String (Nat × List Nat) :=
  match input with
  | b0 :: b1 :: b2 :: b3 :: rest =>
    if [b0, b1, b2] = magicBytes then
      if b3 > formatVersion then .error "bad version"
      else .ok (b3, rest)
    else .error "bad magic"
  | _ => .error "unexpected EOF"

/-- The magic/version phase of `Open` (`sar/open.go:198-207`): run `ReadMagic`
and then additionally reject every version other than exactly `1`. -/
def openMagicGate (input : List Nat) : Except String (Nat × List Nat) :=
  match ReadMagic input with
  | .error e => .error ("checking magic: " ++ e)
  | .ok (version, rest) =>
    if version ≠ 1 then .error "unsupported version"
    else .ok (version, rest)

/-! ## Compression (`sar/sardata/compression.go`)

`CompressionNone = 1` is an identity pass-through; `CompressionFlate = 2`
delegates to `compress/flate`, which is outside this repository, so the flate
codec is a parameter of the model: `FlateModel` packages the encoder and
decoder functions of the configured deflate stream. -/

def compressionValid (c : Nat) : Bool := c = 1 || c = 2

structure FlateModel where
  comp : List Nat → List Nat
  decomp : List Nat → List Nat

/-- `CompressionScheme.Writer` fed with a full payload: the bytes the encoder
hands to its sink.  Invalid schemes fail (`c.Valid()` error). -/
def compressionCompress (fm : FlateModel) (c : Nat) (payload : List Nat) :
    Option (List Nat) :=
  if c = 1 then some payload
  else if c = 2 then some (fm.comp payload)
  else none

/-- `CompressionScheme.Reader` drained to the end: the decompressed bytes of a
compressed payload.  Invalid schemes fail (`c.Valid()` error). -/
def compressionDecompress (fm : FlateModel) (c : Nat) (payload : List Nat) :
    Option (List Nat) :=
  if c = 1 then some payload
  else if c = 2 then some (fm.decomp payload)
  else none

/-! ## Block layer (`sar/sardata/block.go`) -/

/-- `BlockHeader.Write`: varint length followed by the scheme byte. -/
def blockHeaderWrite (length compression : Nat) : List Nat :=
  putUvarint length ++ [compression]

/-- `BlockHeader.Read`: `ReadUvarint`, one more byte, then
`Compression.Valid()`.  Returns `(length, scheme)` and the remainder. -/
def blockHeaderRead (input : List Nat) : Option ((Nat × Nat) × List Nat) :=
  match readUvarint input with
  | none => none
  | some (len, rest) =>
    match rest with
    | [] => none
    | c :: rest1 =>
      if compressionValid c then some ((len, c), rest1) else none

/-- The in-flight state of a `BlockWriter`: `pending` is everything handed to
the compressing writer (buffered, post-compression, in the in-memory
`bytes.Buffer`); `sink` is what has reached the underlying writer `w`. -/
structure BWState where
  pending : List Nat
  sink : List Nat
deriving Repr, DecidableEq

def bwInit : BWState := ⟨[], []⟩

/-- A `Write` call on the wrapper returned by `BlockWriter`: the bytes go into
the compressor (hence the in-memory buffer); nothing reaches `w`. -/
def bwWrite (st : BWState) (bs : List Nat) : BWState :=
  ⟨st.pending ++ bs, st.sink⟩

/-- The close hook of `BlockWriter`: close the compressor, then write
`BlockHeader{len(buf), scheme}` and the buffered compressed bytes to `w`.
An unknown scheme already failed when `BlockWriter` created the compressor,
which we fold into the same `Option`. -/
def blockWriterClose (fm : FlateModel) (scheme : Nat) (st : BWState) :
    Option (List Nat) :=
  match compressionCompress fm scheme st.pending with
  | none => none
  | some buf => some (st.sink ++ blockHeaderWrite buf.length scheme ++ buf)

/-- `BlockReader` followed by draining the returned reader: parse the header,
assert `length ≤ math.MaxInt64`, and decompress a length-limited view of the
remaining stream (`io.LimitReader`). -/
def blockReaderRead (fm : FlateModel) (input : List Nat) : Option (List Nat) :=
  match blockHeaderRead input with
  | none => none
  | some ((len, c), rest) =>
    if len ≤ 2 ^ 63 - 1 then compressionDecompress fm c (rest.take len)
    else none

/-! ## TOC schema (`sar/sardata/toc/toc.proto`) -/

structure CommonMode where
  readonly : Bool
deriving Repr, DecidableEq

structure PosixMode where
  executable : Bool
deriving Repr, DecidableEq

structure WinMode where
  system : Bool
  hidden : Bool
deriving Repr, DecidableEq

structure File where
  size : Nat
  commonMode : Option CommonMode := none
  posixMode : Option PosixMode := none
  winMode : Option WinMode := none
deriving Repr, DecidableEq

structure SymLink where
  target : List String
deriving Repr, DecidableEq

/-- A TOC `Entry`: the `name` field together with the `etype` oneof
(`File | SymLink | Tree`), flattened into one inductive; a `Tree` is its list
of entries. -/
inductive Entry where
  | file (name : String) (f : File)
  | symlink (name : String) (s : SymLink)
  | tree (name : String) (entries : List Entry)

def Entry.name : Entry → String
  | .file n _ => n
  | .symlink n _ => n
  | .tree n _ => n

structure TOC where
  caseSafe : Bool
  root : List Entry

/-! ## TOC validation (`toc.go` part of `sar/sardata/block.go`, lines 215-303)

`badChars = regexp.MustCompile("[<>:\x22/\x5c\x5c|?*\x5cx00-\x5cx1f]")`: the Go
interpreted string holds one backslash before the pipe, so RE2 parses the
class as an escaped pipe — the set is `< > : \x22 / | ? *` plus the control
range; a literal backslash is NOT matched. -/
def badChar (c : Char) : Bool :=
  c = '<' || c = '>' || c = ':' || c = '"' || c = '/' || c = '|' ||
    c = '?' || c = '*' || c.toNat ≤ 0x1f

/-- `checkPathPiece`: empty, then `"."`, then the bad-character scan, then
(unless `allowRel`) the `".."` check. -/
def checkPathPiece (piece : String) (allowRel : Bool) : Except String Unit :=
  if piece = "" then .error "empty path component"
  else if piece = "." then .error "dot path component"
  else if piece.toList.any badChar then .error "bad char in path component"
  else if !allowRel && piece = ".." then
    .error "relative path segment not allowed"
  else .ok ()

/-- The loop of `SymLink.Validate`: check each target piece with
`allowRel = true`; every `".."` bumps `level`, and the symlink is rejected as
soon as `level` exceeds `depth`. -/
def symlinkTargetLoop (depth : Int) : List String → Int → Except String Unit
  | [], _ => .ok ()
  | p :: rest, level =>
    match checkPathPiece p true with
    | .error e => .error ("symlink target piece: " ++ e)
    | .ok _ =>
      if p = ".." then
        if level + 1 > depth then .error "symlink target escapes root"
        else symlinkTargetLoop depth rest (level + 1)
      else symlinkTargetLoop depth rest level

/-- `SymLink.Validate`. -/
def SymLink.Validate (s : SymLink) (depth : Int) : Except String Unit :=
  if s.target.length = 0 then .error "empty symlink target"
  else symlinkTargetLoop depth s.target 0

mutual
/-- `Entry.Validate`: `checkPathPiece(e.Name, false)`, then dispatch on the
oneof (`File.Validate` is always `nil`; a subtree revalidates at the same
`depth` it received, a symlink validates its target at that `depth`). -/
def Entry.Validate (caseSafe : Bool) (depth : Int) : Entry → Except String Unit
  | .file n _ =>
    match checkPathPiece n false with
    | .error e => .error e
    | .ok _ => .ok ()
  | .symlink n s =>
    match checkPathPiece n false with
    | .error e => .error e
    | .ok _ => s.Validate depth
  | .tree n entries =>
    match checkPathPiece n false with
    | .error e => .error e
    | .ok _ => Tree.validateLoop caseSafe depth entries [] []

/-- The entry loop of `Tree.Validate`: `names` and `lowerNames` model the two
`stringset.Set`s (membership lists); a duplicate name, a case-insensitive
duplicate under `caseSafe`, or a failing `Entry.Validate(caseSafe, depth+1)`
aborts. -/
def Tree.validateLoop (caseSafe : Bool) (depth : Int) :
    List Entry → List String → List String → Except String Unit
  | [], _, _ => .ok ()
  | e :: rest, names, lowerNames =>
    if names.contains e.name then .error "duplicate entry"
    else if caseSafe && lowerNames.contains e.name.toLower then
      .error "case-sensitive entry"
    else
      match Entry.Validate caseSafe (depth + 1) e with
      | .error msg => .error ("in entry: " ++ msg)
      | .ok _ =>
        Tree.validateLoop caseSafe depth rest (e.name :: names)
          (e.name.toLower :: lowerNames)
end

/-- `Tree.Validate`: run the entry loop with two fresh sets. -/
def Tree.Validate (caseSafe : Bool) (depth : Int) (entries : List Entry) :
    Except String Unit :=
  Tree.validateLoop caseSafe depth entries [] []

/-- `TOC.Validate`: validate the root tree with `depth = -1`, so the root's
entries see `depth = 0`. -/
def TOC.Validate (t : TOC) : Except String Unit :=
  Tree.Validate t.caseSafe (-1) t.root

/-! ## TOC traversal (`TOC.LoopItems`, `toc.go` part of `block.go` lines
172-213)

`LoopItems` walks the TOC with an explicit stack of `(Tree, next_index)`
frames.  We represent a frame by the suffix of entries it still has to visit
(`node.Entries[i:]`), so the stack is a `List (List Entry)`; `path` is the Go
reusable path buffer, truncated to the post-pop stack depth before each
callback. -/

mutual
def Entry.weight : Entry → Nat
  | .file _ _ => 1
  | .symlink _ _ => 1
  | .tree _ sub => 1 + weightList sub

def weightList : List Entry → Nat
  | [] => 0
  | e :: rest => e.weight + weightList rest
end

def stackWeight : List (List Entry) → Nat
  | [] => 0
  | node :: stack => weightList node + stackWeight stack

/-- The `for len(nodes) > 0` loop of `LoopItems`.  Popping an exhausted frame
resumes the parent; visiting an entry truncates the path buffer to the
remaining stack depth, appends the entry name, and invokes `cb`; descending
into a subtree pushes the parent continuation and then the subtree. -/
def TOC.loopGo {ε : Type} (cb : List String → Entry → Except ε Unit) :
    List String → List (List Entry) → Except ε Unit
  | _, [] => .ok ()
  | path, [] :: stack => TOC.loopGo cb path stack
  | path, (e :: rest) :: stack =>
    let path1 := path.take stack.length ++ [e.name]
    match cb path1 e with
    | .error err => .error err
    | .ok _ =>
      match e with
      | .tree _ sub => TOC.loopGo cb path1 (sub :: rest :: stack)
      | .file _ _ => TOC.loopGo cb path1 (rest :: stack)
      | .symlink _ _ => TOC.loopGo cb path1 (rest :: stack)
termination_by _ stack => 2 * stackWeight stack + stack.length
decreasing_by
  all_goals simp [stackWeight, weightList, Entry.weight]
  all_goals omega

/-- `TOC.LoopItems`: start with the empty path and the root tree at index 0. -/
def TOC.LoopItems {ε : Type} (t : TOC)
    (cb : List String → Entry → Except ε Unit) : Except ε Unit :=
  TOC.loopGo cb [] [t.root]

/-! Modelled from the spec: the depth-first pre-order visit sequence
("LoopItems yields every Entry in strict depth-first pre-order ... Directories
are visited before their children", siblings in declared order, each entry
paired with its path of name components).  `TOC.LoopItems` is proved
equivalent to folding the callback over this sequence. -/

mutual
def preorder (path : List String) : List Entry → List (List String × Entry)
  | [] => []
  | e :: rest =>
    (path ++ [e.name], e) :: (preorderChildren (path ++ [e.name]) e ++
      preorder path rest)

def preorderChildren (path : List String) : Entry → List (List String × Entry)
  | .tree _ sub => preorder path sub
  | .file _ _ => []
  | .symlink _ _ => []
end

/-- Fold a callback over a visit sequence, stopping at the first error. -/
def visitSeq {ε : Type} (cb : List String → Entry → Except ε Unit) :
    List (List String × Entry) → Except ε Unit
  | [] => .ok ()
  | (p, e) :: rest =>
    match cb p e with
    | .error err => .error err
    | .ok _ => visitSeq cb rest

/-- The visit sequence still pending for a `loopGo` stack: each frame
contributes its pre-order sequence under the path prefix of its depth. -/
def stackSeq (path : List String) : List (List Entry) →
    List (List String × Entry)
  | [] => []
  | node :: stack => preorder (path.take stack.length) node ++ stackSeq path stack

/-! ## Total file size (`OpenedArchive.Close`, `sar/open.go:67-73`)

`Close` accumulates `totalSize += f.Size` over `a.TOC.LoopItems` with a
callback that never errors; that equals the depth-first sum of `File.size`
over the tree, which we define structurally. -/

mutual
def Entry.fileSizeSum : Entry → Nat
  | .file _ f => f.size
  | .symlink _ _ => 0
  | .tree _ sub => sumFileSizes sub

def sumFileSizes : List Entry → Nat
  | [] => 0
  | e :: rest => e.fileSizeSum + sumFileSizes rest
end

/-! ## Checksum layer (`sar/sardata/checksum.go`) -/

/-- `ChecksumScheme.Valid`: `SHA2-256=1, SHA2-512=2, BLAKE2s=3, BLAKE2b=4,
SHA3-256=5, SHA3-512=6, NULL=255`. -/
def checksumValid (c : Nat) : Bool :=
  c = 1 || c = 2 || c = 3 || c = 4 || c = 5 || c = 6 || c = 255

/-- `ChecksumScheme.Hash().Size()` for each valid scheme (`nullHash.Size()` is
0; invalid schemes never reach `Hash`). -/
def hashSize : Nat → Nat
  | 1 => 32
  | 2 => 64
  | 3 => 32
  | 4 => 64
  | 5 => 32
  | 6 => 64
  | _ => 0

/-- A seekable byte source (`readSeekCloser`): the whole underlying byte
sequence plus the current offset. -/
structure StreamState where
  data : List Nat
  pos : Nat
deriving Repr, DecidableEq

/-- One observable I/O request issued against the source: a `Seek(offset,
whence)` call (`whence`: 0 = start, 1 = current, 2 = end) or a full read of
`n` bytes. -/
inductive StreamEv where
  | seekEv (offset : Int) (whence : Nat)
  | readEv (n : Nat)
deriving Repr, DecidableEq

/-- `Seek`: compute the absolute target; negative targets are errors,
positions past the end are allowed. -/
def doSeek (s : StreamState) (offset : Int) (whence : Nat) :
    Option (Nat × StreamState) :=
  let base : Int :=
    if whence = 0 then 0
    else if whence = 1 then (s.pos : Int)
    else (s.data.length : Int)
  let target := base + offset
  if target < 0 then none
  else some (target.toNat, { s with pos := target.toNat })

/-- `io.ReadFull` of `n` bytes: fails (unexpected EOF) unless `n` bytes are
available at the current offset. -/
def doReadFull (s : StreamState) (n : Nat) : Option (List Nat × StreamState) :=
  if s.pos + n ≤ s.data.length then
    some ((s.data.drop s.pos).take n, { s with pos := s.pos + n })
  else none

structure TrailerInfo where
  scheme : Nat
  nominalEnd : Nat
  nominalChecksum : List Nat
  final : StreamState
deriving Repr, DecidableEq

/-- `ParseTrailer`: record the current offset (`Seek(0, current)`), seek to
`end-1`, read the `digest_len` byte, seek `-(digest_len+2)` from current
(landing on the scheme byte, whose absolute offset is returned as
`nominalEnd`), read `digest_len+1` bytes (scheme byte + digest), validate the
scheme and the digest size, and seek back to the saved offset.  The second
component is the exact sequence of I/O requests issued. -/
def ParseTrailer (s0 : StreamState) :
    Except String TrailerInfo × List StreamEv :=
  let e0 := StreamEv.seekEv 0 1
  match doSeek s0 0 1 with
  | none => (.error "seek error", [e0])
  | some (curOffset, s1) =>
    let e1 := StreamEv.seekEv (-1) 2
    match doSeek s1 (-1) 2 with
    | none => (.error "seek error", [e0, e1])
    | some (_, s2) =>
      let e2 := StreamEv.readEv 1
      match doReadFull s2 1 with
      | none => (.error "unexpected EOF", [e0, e1, e2])
      | some (one, s3) =>
        let nominalSize := one.headD 0
        let e3 := StreamEv.seekEv (-((nominalSize : Int) + 2)) 1
        match doSeek s3 (-((nominalSize : Int) + 2)) 1 with
        | none => (.error "seek error", [e0, e1, e2, e3])
        | some (nominalEnd, s4) =>
          let e4 := StreamEv.readEv (nominalSize + 1)
          match doReadFull s4 (nominalSize + 1) with
          | none => (.error "unexpected EOF", [e0, e1, e2, e3, e4])
          | some (buf, s5) =>
            let c := buf.headD 0
            let nominalChecksum := buf.tail
            if checksumValid c = false then
              (.error "unknown checksum scheme", [e0, e1, e2, e3, e4])
            else if nominalSize ≠ hashSize c then
              (.error "mismatched hash size", [e0, e1, e2, e3, e4])
            else
              let e5 := StreamEv.seekEv (curOffset : Int) 0
              match doSeek s5 (curOffset : Int) 0 with
              | none => (.error "seek error", [e0, e1, e2, e3, e4, e5])
              | some (_, s6) =>
                (.ok ⟨c, nominalEnd, nominalChecksum, s6⟩,
                  [e0, e1, e2, e3, e4, e5])

/-- The byte shape of a checksum trailer: scheme byte, digest, digest-length
byte (`checksum.go:113-124`; the NULL trailer is the instance with an empty
digest). -/
def trailerBytes (scheme : Nat) (digest : List Nat) : List Nat :=
  scheme :: (digest ++ [digest.length])

/-- Total bytes requested by the reads of a trace. -/
def traceReadBytes : List StreamEv → Nat
  | [] => 0
  | .readEv n :: rest => n + traceReadBytes rest
  | .seekEv _ _ :: rest => traceReadBytes rest

/-- Number of `Seek` calls in a trace. -/
def traceSeekCount : List StreamEv → Nat
  | [] => 0
  | .readEv _ :: rest => traceSeekCount rest
  | .seekEv _ _ :: rest => 1 + traceSeekCount rest

/-- The close hook `ChecksumReader` installs for every scheme other than
`ChecksumNULL` (`checksum.go:221-240`): compare the current offset against the
payload end (junk check), then compare `h.Sum(nil)` — the hash of all bytes
that were read through the tee — against the trailing digest; only then close
the underlying source. -/
def checksumCloseHook (actualEnd nominalEnd : Int)
    (actualChecksum nominalChecksum : List Nat) : Except String Unit :=
  if actualEnd ≠ nominalEnd then .error "junk after payload"
  else if actualChecksum ≠ nominalChecksum then .error "mismatched checksum"
  else .ok ()

/-- The `ChecksumNULL` close hook (`checksum.go:202-218`): only the junk
check. -/
def checksumNullCloseHook (actualEnd nominalEnd : Int) : Except String Unit :=
  if actualEnd ≠ nominalEnd then .error "junk after payload" else .ok ()

/-! ## OpenedArchive close and unpack (`sar/open.go`, `sar/unpack.go`)

After `Open` succeeds, `ar.r` has been *reassigned* to the result of
`sardata.BlockReader(openedReader)` (`open.go:225`): the data-block
decompressor.  Closing that value runs `readCloseHook{r, nil}.Close()` for
`CompressionNone` and `flate.Reader.Close` for `CompressionFlate`; neither
closes the underlying reader, so the `ChecksumReader` close hook above is
never invoked by `Close`/`UnpackTo`. -/

/-- `VerifyStateEnum`: `VerifyLate = 0`, `VerifyEarly = 1`,
`VerifyNever = 2`. -/
structure ArchiveModel where
  didClose : Bool
  verifyState : Nat
  toc : TOC
  /-- decompressed bytes still available from the data-block reader `a.r` -/
  dataRemaining : Nat
  dataReaderClosed : Bool
  /-- whether the underlying `readSeekCloser` (wrapped by the checksum layer)
  has been closed — which would run the checksum verification -/
  sourceClosed : Bool

/-- `a.r.Close()` on the data-block reader: returns nil (no stored stream
error in this model, where reads never fail) and leaves the underlying source
— and hence the checksum layer — untouched. -/
def dataReaderClose (a : ArchiveModel) : Except String Unit × ArchiveModel :=
  (.ok (), { a with dataReaderClosed := true })

/-- `OpenedArchive.Close` (`open.go:49-80`): a second close is a nil no-op;
otherwise mark closed, and for `VerifyEarly`/`VerifyNever` just close `a.r`;
for `VerifyLate` first drain `io.Copy(Discard, io.LimitReader(a.r,
int64(totalSize)))`, then close `a.r`.  `totalSize` is accumulated in
`uint64` over the `LoopItems` sum of `File.Size` — it wraps modulo `2^64`
(the source carries a TODO noting the overflow) — and the `int64(totalSize)`
conversion reinterprets wrapped sums `≥ 2^63` as negative, for which
`io.LimitReader` reads nothing. -/
def ArchiveModel.Close (a : ArchiveModel) : Except String Unit × ArchiveModel :=
  if a.didClose then (.ok (), a)
  else
    let a1 := { a with didClose := true }
    if a1.verifyState = 1 then dataReaderClose a1
    else if a1.verifyState = 2 then dataReaderClose a1
    else
      let totalSize : Nat := sumFileSizes a1.toc.root % 2 ^ 64
      -- `int64(totalSize)` equals `totalSize` when `totalSize < 2^63` and is
      -- negative otherwise, and `io.LimitReader` reads nothing for a
      -- non-positive limit
      let drained :=
        if totalSize < 2 ^ 63 then min totalSize a1.dataRemaining else 0
      dataReaderClose { a1 with dataRemaining := a1.dataRemaining - drained }

/-- `os.Stat` outcome for the unpack target. -/
inductive StatResult where
  | statOk (isDir : Bool) (numEntries : Nat)
  | notExist
  | otherErr (msg : String)
deriving Repr, DecidableEq

def statIsNotExist : StatResult → Bool
  | .notExist => true
  | _ => false

/-- The raw `error` value `os.Stat` produced (`nil` when the path exists). -/
def statErrValue : StatResult → Except String Unit
  | .statOk _ _ => .ok ()
  | .notExist => .error "not exist"
  | .otherErr m => .error m

def statIsDir : StatResult → Bool
  | .statOk d _ => d
  | _ => false

def statNumEntries : StatResult → Nat
  | .statOk _ n => n
  | _ => 0

/-- `ensureRoot` (`unpack.go:21-45`), translated branch by branch.  Note the
first branch: when the path exists, `err` is `nil`, `os.IsNotExist(nil)` is
`false`, so `ensureRoot` returns the nil error immediately and the later
`IsDir`/`Readdir` emptiness branches are unreachable. -/
def ensureRoot (st : StatResult) : Except String Unit :=
  if !(statIsNotExist st) then
    statErrValue st
  else if statIsNotExist st then
    .ok ()
  else if !(statIsDir st) then
    statErrValue st
  else if statIsDir st then
    if statNumEntries st ≠ 0 then .error "dir not empty" else .ok ()
  else .ok ()

inductive UnpackOutcome where
  | doubleUnpack
  | rootError (e : String)
  | proceeded
deriving Repr, DecidableEq

/-- The prologue of `OpenedArchive.UnpackTo` (`unpack.go:124-137`): fail with
the double-unpack error if `didClose` is already set; otherwise set
`didClose`, run `ensureRoot` on the target, and only then proceed to the
traversal pipeline. -/
def ArchiveModel.unpackToPrologue (a : ArchiveModel) (target : StatResult) :
    UnpackOutcome × ArchiveModel :=
  if a.didClose then (.doubleUnpack, a)
  else
    let a1 := { a with didClose := true }
    match ensureRoot target with
    | .error e => (.rootError e, a1)
    | .ok _ => (.proceeded, a1)

/-- `UnpackTo`'s final step (`unpack.go:193`): `checksumCloser.Close()`, where
`prepReader` set `checksumCloser := io.Closer(a.r)` — again the data-block
reader, not the checksum layer. -/
def unpackFinalClose (a : ArchiveModel) : Except String Unit × ArchiveModel :=
  dataReaderClose a

/-! ## Fixtures -/

/-- Fixture: a TOC holding a single 3-byte file. -/
def tocA : TOC := ⟨true, [.file "someFile" ⟨3, none, none, none⟩]⟩

/-- Fixture: a `VerifyLate` archive just returned by `Open`. -/
def archA : ArchiveModel := ⟨false, 0, tocA, 3, false, false⟩

/-- Fixture: the same archive opened with `VerifyEarly`. -/
def archEarly : ArchiveModel := ⟨false, 1, tocA, 3, false, false⟩

/-- Fixture: an archive already unpacked or closed. -/
def archClosed : ArchiveModel := ⟨true, 0, tocA, 3, false, false⟩

/-- Fixture: a TOC whose only entry name contains a backslash. -/
def tocBackslash : TOC := ⟨true, [.file "a\\b" ⟨0, none, none, none⟩]⟩

/-! ## Claims -/

/-- C10: validation rejects every `SymLink` whose target sequence is empty
with the "empty symlink target" error, at any depth. -/
theorem c10_empty_symlink_target_rejected (d : Int) :
    SymLink.Validate ⟨[]⟩ d = .error "empty symlink target" := rfl

/-- C3 counterexample: for the archive prefix `"SAR" ++ [0]` (version byte
`0 < 1`), `ReadMagic` succeeds and returns 0, but `Open`'s magic/version phase
rejects it — `Open` does not proceed past the version check for any
version other than exactly 1, contradicting the claim that any version `≤ 1`
is accepted by `Open`. -/
theorem c3_version0_rejected_by_open :
    ReadMagic [83, 65, 82, 0] = .ok (0, []) ∧
    openMagicGate [83, 65, 82, 0] = .error "unsupported version" := ⟨rfl, rfl⟩

/-- C3 (amended): for a source starting `"SAR"` with version byte `v ≤ 1`,
`ReadMagic` succeeds and returns `v`; `Open`'s magic/version phase accepts
exactly `v = 1` and fails with an unsupported-version error for `v = 0`. -/
theorem c3_magic_version_gate (v : Nat) (rest : List Nat) (h : v ≤ 1) :
    ReadMagic (83 :: 65 :: 82 :: v :: rest) = .ok (v, rest) ∧
    openMagicGate (83 :: 65 :: 82 :: v :: rest) =
      (if v = 1 then .ok (v, rest) else .error "unsupported version") := by
  have hm : ReadMagic (83 :: 65 :: 82 :: v :: rest) = .ok (v, rest) := by
    simp only [ReadMagic, magicBytes, formatVersion]
    rw [if_pos (by trivial), if_neg (by omega)]
  refine ⟨hm, ?_⟩
  by_cases hv : v = 1
  · subst hv
    simp [openMagicGate, hm]
  · simp [openMagicGate, hm, hv]

theorem c3_magic_version_gate_witness :
    ReadMagic (83 :: 65 :: 82 :: 1 :: []) = .ok (1, []) ∧
    openMagicGate (83 :: 65 :: 82 :: 1 :: []) =
      (if 1 = 1 then .ok (1, ([] : List Nat))
       else .error "unsupported version") :=
  c3_magic_version_gate 1 [] (by decide)

/-- C2: evaluating the unpack root precondition: an absent target and an
existing empty directory are accepted, but an existing NON-empty directory is
accepted as well — `ensureRoot` returns the nil stat error for every existing
path, its "dir not empty" branch is unreachable, and `UnpackTo` proceeds to
unpack entries instead of failing with NotEmpty. -/
theorem c2_nonempty_dir_accepted :
    ensureRoot .notExist = .ok () ∧
    ensureRoot (.statOk true 0) = .ok () ∧
    ensureRoot (.statOk true 1) = .ok () ∧
    (archA.unpackToPrologue (.statOk true 1)).1 = .proceeded :=
  ⟨rfl, rfl, rfl, rfl⟩

/-- C1: with Late verification, `Close` (and `UnpackTo`'s final
`checksumCloser.Close()`) only ever close the data-block reader, which never
closes the underlying source, so the `ChecksumReader` close hook — the only
place the MismatchedChecksum error is produced — is never invoked: on an
archive whose trailing digest `[2]` differs from the payload hash `[1]`,
`Close` returns nil success, while the checksum layer's own close hook at the
same position reports the mismatch. -/
theorem c1_close_skips_checksum_verification :
    (∀ a : ArchiveModel,
      (a.Close).2.sourceClosed = a.sourceClosed ∧
      (unpackFinalClose a).2.sourceClosed = a.sourceClosed) ∧
    (archA.Close).1 = .ok () ∧
    (unpackFinalClose archA).1 = .ok () ∧
    checksumCloseHook 3 3 [1] [2] = .error "mismatched checksum" := by
  refine ⟨fun a => ⟨?_, rfl⟩, rfl, rfl, rfl⟩
  by_cases h : a.didClose
  · simp [ArchiveModel.Close, h]
  · by_cases h1 : a.verifyState = 1
    · simp [ArchiveModel.Close, h, h1, dataReaderClose]
    · by_cases h2 : a.verifyState = 2 <;>
        simp [ArchiveModel.Close, h, h1, h2, dataReaderClose]

/-- C4 counterexample: an archive opened with `VerifyEarly`, in state Open,
over a TOC whose `File.size` sum is 3 with 3 data bytes available: `Close`
drains nothing (`dataRemaining` stays 3, not 0) and the underlying source is
not closed — refuting "Close from Open drains the data block up to the sum of
all File.size values and then closes the source" as an unconditional
statement. -/
theorem c4_close_counterexample :
    sumFileSizes archEarly.toc.root = 3 ∧
    archEarly.didClose = false ∧
    (archEarly.Close).2.dataRemaining = 3 ∧
    (archEarly.Close).2.sourceClosed = false := ⟨rfl, rfl, rfl, rfl⟩

/-- C4 (amended): `UnpackTo` on an already unpacked-or-closed archive fails
with the double-unpack error leaving the archive untouched (independently of
the target, so no filesystem or source access); `Close` from Open under
`VerifyLate` drains the data reader by `min(sum of File.size wrapped in
uint64, available)` bytes when that wrapped sum fits `int64` — and by nothing
at all when the `int64(totalSize)` conversion is negative (wrapped sum
`≥ 2^63`) — and closes the data-block reader (the underlying source stays
open); under `VerifyEarly`/`VerifyNever` it closes the data-block reader
immediately without draining; `Close` after a previous `UnpackTo`/`Close`
returns nil and changes nothing. -/
theorem c4_state_machine :
    (∀ (a : ArchiveModel) (t : StatResult), a.didClose = true →
      a.unpackToPrologue t = (.doubleUnpack, a)) ∧
    (∀ a : ArchiveModel, a.didClose = false → a.verifyState = 0 →
      a.Close = (.ok (), { a with
        didClose := true,
        dataRemaining := a.dataRemaining -
          (if sumFileSizes a.toc.root % 2 ^ 64 < 2 ^ 63
           then min (sumFileSizes a.toc.root % 2 ^ 64) a.dataRemaining
           else 0),
        dataReaderClosed := true })) ∧
    (∀ a : ArchiveModel, a.didClose = false →
      (a.verifyState = 1 ∨ a.verifyState = 2) →
      a.Close = (.ok (), { a with
        didClose := true,
        dataReaderClosed := true })) ∧
    (∀ a : ArchiveModel, a.didClose = true → a.Close = (.ok (), a)) := by
  refine ⟨fun a t h => ?_, fun a h h0 => ?_, fun a h h12 => ?_, fun a h => ?_⟩
  · simp [ArchiveModel.unpackToPrologue, h]
  · simp [ArchiveModel.Close, h, h0, dataReaderClose]
  · rcases h12 with h1 | h2
    · simp [ArchiveModel.Close, h, h1, dataReaderClose]
    · simp [ArchiveModel.Close, h, h2, dataReaderClose]
  · simp [ArchiveModel.Close, h]

theorem c4_state_machine_witness :
    archClosed.unpackToPrologue .notExist = (.doubleUnpack, archClosed) ∧
    archA.Close = (.ok (), { archA with
      didClose := true,
      dataRemaining := archA.dataRemaining -
        (if sumFileSizes archA.toc.root % 2 ^ 64 < 2 ^ 63
         then min (sumFileSizes archA.toc.root % 2 ^ 64) archA.dataRemaining
         else 0),
      dataReaderClosed := true }) ∧
    archEarly.Close = (.ok (), { archEarly with
      didClose := true,
      dataReaderClosed := true }) ∧
    archClosed.Close = (.ok (), archClosed) :=
  ⟨c4_state_machine.1 archClosed .notExist rfl,
   c4_state_machine.2.1 archA rfl rfl,
   c4_state_machine.2.2.1 archEarly rfl (Or.inl rfl),
   c4_state_machine.2.2.2 archClosed rfl⟩

/-- C8: evaluating validation at a name containing a backslash: the
`badChars` class does not contain the backslash (the Go pattern escapes the
pipe instead), so `checkPathPiece` and full TOC validation ACCEPT the name
`a\x5cb`, although the claimed forbidden set `<>:\x22/\x5c|?*` includes the
backslash. -/
theorem c8_backslash_name_accepted :
    badChar (Char.ofNat 92) = false ∧
    checkPathPiece "a\\b" false = .ok () ∧
    tocBackslash.Validate = .ok () := ⟨rfl, rfl, rfl⟩

lemma checkPathPiece_dotdot : checkPathPiece ".." true = .ok () := rfl

/-- The symlink-target loop succeeds iff the target has no `".."` at all or
`level` plus the total number of `".."` components stays within `depth`
(the running level is monotone, so its maximum is attained at the last
`".."`). -/
lemma symlinkTargetLoop_ok_iff (d : Int) (tgt : List String) :
    ∀ level : Int, (∀ p ∈ tgt, checkPathPiece p true = .ok ()) →
      (symlinkTargetLoop d tgt level = .ok () ↔
        (tgt.count ".." = 0 ∨ level + (tgt.count ".." : Int) ≤ d)) := by
  induction tgt with
  | nil =>
    intro level _
    simp [symlinkTargetLoop]
  | cons p rest ih =>
    intro level hp
    have hph : checkPathPiece p true = .ok () := hp p (by simp)
    have hpr : ∀ q ∈ rest, checkPathPiece q true = .ok () :=
      fun q hq => hp q (by simp [hq])
    by_cases hdd : p = ".."
    · subst hdd
      rw [List.count_cons_self]
      by_cases hl : level + 1 > d
      · have hstep : symlinkTargetLoop d (".." :: rest) level =
            .error "symlink target escapes root" := by
          simp [symlinkTargetLoop, hph, hl]
        rw [hstep]
        constructor
        · intro hcon
          exact absurd hcon (by simp)
        · intro hcon
          exfalso
          rcases hcon with h0 | hle <;> omega
      · have hstep : symlinkTargetLoop d (".." :: rest) level =
            symlinkTargetLoop d rest (level + 1) := by
          simp [symlinkTargetLoop, hph, hl]
        rw [hstep, ih (level + 1) hpr]
        omega
    · have hstep : symlinkTargetLoop d (p :: rest) level =
          symlinkTargetLoop d rest level := by
        simp [symlinkTargetLoop, hph, hdd]
      rw [hstep, List.count_cons_of_ne (fun hcon => hdd hcon.symm)]
      exact ih level hpr

/-- `SymLink.Validate` on a non-empty, piecewise-acceptable target succeeds
iff the total `".."` count is zero or bounded by the depth. -/
lemma SymLink_Validate_ok_iff (d : Int) (tgt : List String)
    (hne : tgt ≠ []) (hp : ∀ p ∈ tgt, checkPathPiece p true = .ok ()) :
    SymLink.Validate ⟨tgt⟩ d = .ok () ↔
      (tgt.count ".." = 0 ∨ (tgt.count ".." : Int) ≤ d) := by
  have hlen : ¬ tgt.length = 0 := by simpa using hne
  simp only [SymLink.Validate, if_neg hlen]
  have := symlinkTargetLoop_ok_iff d tgt 0 hp
  simpa using this

/-- C7: a symlink at depth `d` whose target is `k` leading `".."` components
followed by otherwise-valid non-`".."` components (at least one component in
total) validates successfully iff `k ≤ d`; equivalently, iff the cumulative
count of `".."` components over every prefix of the target never exceeds
`d`. -/
theorem c7_symlink_escape (d k : Nat) (ps : List String)
    (hps : ∀ p ∈ ps, p ≠ ".." ∧ checkPathPiece p true = .ok ())
    (hne : 0 < k + ps.length) :
    (SymLink.Validate ⟨List.replicate k ".." ++ ps⟩ (d : Int) = .ok () ↔
      k ≤ d) ∧
    (SymLink.Validate ⟨List.replicate k ".." ++ ps⟩ (d : Int) = .ok () ↔
      ∀ n, ((List.replicate k ".." ++ ps).take n).count ".." ≤ d) := by
  have hmem : ∀ p ∈ List.replicate k ".." ++ ps,
      checkPathPiece p true = .ok () := by
    intro p hpm
    rcases List.mem_append.1 hpm with hh | hh
    · rw [List.eq_of_mem_replicate hh]
      exact checkPathPiece_dotdot
    · exact (hps p hh).2
  have hnil : List.replicate k ".." ++ ps ≠ [] := by
    intro hcon
    have hlen2 : (List.replicate k ".." ++ ps).length = 0 := by
      rw [hcon]
      rfl
    rw [List.length_append, List.length_replicate] at hlen2
    omega
  have hcnt : (List.replicate k ".." ++ ps).count ".." = k := by
    rw [List.count_append, List.count_replicate_self,
      List.count_eq_zero.2 (fun hcon => (hps _ hcon).1 rfl)]
    omega
  have hval := SymLink_Validate_ok_iff (d : Int) _ hnil hmem
  rw [hcnt] at hval
  constructor
  · rw [hval]
    constructor
    · intro hh
      rcases hh with h0 | hle
      · omega
      · exact_mod_cast hle
    · intro hkd
      right
      exact_mod_cast hkd
  · rw [hval]
    constructor
    · intro hh n
      have hsub : ((List.replicate k ".." ++ ps).take n).count ".." ≤
          (List.replicate k ".." ++ ps).count ".." :=
        (List.take_sublist _ _).count_le _
      rw [hcnt] at hsub
      rcases hh with h0 | hle
      · omega
      · have hkd : k ≤ d := by exact_mod_cast hle
        omega
    · intro hh
      have htop := hh (k + ps.length)
      rw [List.take_of_length_le (by simp), hcnt] at htop
      right
      exact_mod_cast htop

theorem c7_symlink_escape_witness :
    (SymLink.Validate ⟨List.replicate 1 ".." ++ ["f"]⟩ ((1 : Nat) : Int) =
        .ok () ↔ 1 ≤ 1) ∧
    (SymLink.Validate ⟨List.replicate 1 ".." ++ ["f"]⟩ ((1 : Nat) : Int) =
        .ok () ↔
      ∀ n, ((List.replicate 1 ".." ++ ["f"]).take n).count ".." ≤ 1) :=
  c7_symlink_escape 1 1 ["f"] (by decide) (by decide)

lemma doSeek_eq (s : StreamState) (offset : Int) (whence : Nat) (t : Nat)
    (h : (if whence = 0 then 0
          else if whence = 1 then (s.pos : Int)
          else (s.data.length : Int)) + offset = (t : Int)) :
    doSeek s offset whence = some (t, { s with pos := t }) := by
  simp only [doSeek]
  rw [h, if_neg (by omega)]
  simp

lemma doReadFull_eq (s : StreamState) (cnt : Nat)
    (h : s.pos + cnt ≤ s.data.length) :
    doReadFull s cnt =
      some ((s.data.drop s.pos).take cnt, { s with pos := s.pos + cnt }) := by
  simp only [doReadFull]
  rw [if_pos h]

/-- C5 (amended): on a well-formed trailer (valid scheme, digest length `n`
matching the scheme's hash size), `ParseTrailer` succeeds with the scheme, the
digest, and the payload-end offset (the scheme byte's absolute offset), having
issued exactly four `Seek` calls — an initial `Seek(0, current)` position
query that does not move the stream, then the three repositioning seeks to
`end-1`, `current-(n+2)` and back to the saved position — and exactly `n+2`
bytes of reads (the `digest_len` byte plus the `scheme ++ digest` block),
independent of the payload length. -/
theorem c5_parse_trailer_trace (payload digest : List Nat) (scheme p : Nat)
    (hv : checksumValid scheme = true)
    (hsz : digest.length = hashSize scheme) :
    ParseTrailer ⟨payload ++ trailerBytes scheme digest, p⟩ =
      (.ok ⟨scheme, payload.length, digest,
          ⟨payload ++ trailerBytes scheme digest, p⟩⟩,
        [.seekEv 0 1, .seekEv (-1) 2, .readEv 1,
          .seekEv (-((digest.length : Int) + 2)) 1,
          .readEv (digest.length + 1), .seekEv (p : Int) 0]) ∧
    traceReadBytes
        [.seekEv 0 1, .seekEv (-1) 2, .readEv 1,
          .seekEv (-((digest.length : Int) + 2)) 1,
          .readEv (digest.length + 1), .seekEv (p : Int) 0] =
      digest.length + 2 ∧
    traceSeekCount
        [.seekEv 0 1, .seekEv (-1) 2, .readEv 1,
          .seekEv (-((digest.length : Int) + 2)) 1,
          .readEv (digest.length + 1), .seekEv (p : Int) 0] = 4 := by
  refine ⟨?_, by simp [traceReadBytes]; omega, by simp [traceSeekCount]⟩
  have hL : (payload ++ trailerBytes scheme digest).length =
      payload.length + digest.length + 2 := by
    simp only [trailerBytes, List.length_append, List.length_cons,
      List.length_nil]
    omega
  have hsplit : payload ++ trailerBytes scheme digest =
      (payload ++ (scheme :: digest)) ++ [digest.length] := by
    simp [trailerBytes]
  have hfront : (payload ++ (scheme :: digest)).length =
      payload.length + digest.length + 1 := by
    simp only [List.length_append, List.length_cons]
    omega
  have hdrop1 : (payload ++ trailerBytes scheme digest).drop
      (payload.length + digest.length + 1) = [digest.length] := by
    rw [hsplit, ← hfront, List.drop_left]
  have hdrop2 : (payload ++ trailerBytes scheme digest).drop
      payload.length = trailerBytes scheme digest :=
    List.drop_left payload (trailerBytes scheme digest)
  have h1 : doSeek ⟨payload ++ trailerBytes scheme digest, p⟩ 0 1 =
      some (p, ⟨payload ++ trailerBytes scheme digest, p⟩) := by
    have := doSeek_eq ⟨payload ++ trailerBytes scheme digest, p⟩
      0 1 p (by norm_num)
    simpa using this
  have h2 : doSeek ⟨payload ++ trailerBytes scheme digest, p⟩ (-1) 2 =
      some (payload.length + digest.length + 1,
        ⟨payload ++ trailerBytes scheme digest,
          payload.length + digest.length + 1⟩) := by
    have := doSeek_eq ⟨payload ++ trailerBytes scheme digest, p⟩
      (-1) 2 (payload.length + digest.length + 1)
      (by simp [trailerBytes]; omega)
    simpa using this
  have r1 : doReadFull ⟨payload ++ trailerBytes scheme digest,
      payload.length + digest.length + 1⟩ 1 =
      some ([digest.length],
        ⟨payload ++ trailerBytes scheme digest,
          payload.length + digest.length + 1 + 1⟩) := by
    have := doReadFull_eq ⟨payload ++ trailerBytes scheme digest,
      payload.length + digest.length + 1⟩ 1 (by simp only [hL]; omega)
    simp only [hdrop1] at this
    simpa using this
  have h3 : doSeek ⟨payload ++ trailerBytes scheme digest,
      payload.length + digest.length + 1 + 1⟩
      (-((digest.length : Int) + 2)) 1 =
      some (payload.length,
        ⟨payload ++ trailerBytes scheme digest, payload.length⟩) := by
    have := doSeek_eq ⟨payload ++ trailerBytes scheme digest,
      payload.length + digest.length + 1 + 1⟩
      (-((digest.length : Int) + 2)) 1 payload.length
      (by simp [trailerBytes]; omega)
    simpa using this
  have r2 : doReadFull ⟨payload ++ trailerBytes scheme digest,
      payload.length⟩ (digest.length + 1) =
      some (scheme :: digest,
        ⟨payload ++ trailerBytes scheme digest,
          payload.length + (digest.length + 1)⟩) := by
    have := doReadFull_eq ⟨payload ++ trailerBytes scheme digest,
      payload.length⟩ (digest.length + 1) (by simp only [hL]; omega)
    simp only [hdrop2, trailerBytes, List.take_succ_cons, List.take_left]
      at this
    simpa using this
  have h4 : doSeek ⟨payload ++ trailerBytes scheme digest,
      payload.length + (digest.length + 1)⟩ (p : Int) 0 =
      some (p, ⟨payload ++ trailerBytes scheme digest, p⟩) := by
    have := doSeek_eq ⟨payload ++ trailerBytes scheme digest,
      payload.length + (digest.length + 1)⟩ (p : Int) 0 p (by norm_num)
    simpa using this
  have hne2 : ¬(digest.length ≠ hashSize scheme) := by simp [hsz]
  simp only [ParseTrailer, h1, h2, r1, h3, r2, h4, List.headD_cons,
    List.tail_cons]
  simp [hv, hne2]


theorem c5_parse_trailer_trace_witness :
    ParseTrailer ⟨[9] ++ trailerBytes 255 [], 5⟩ =
      (.ok ⟨255, [9].length, [],
          ⟨[9] ++ trailerBytes 255 [], 5⟩⟩,
        [.seekEv 0 1, .seekEv (-1) 2, .readEv 1,
          .seekEv (-((([] : List Nat).length : Int) + 2)) 1,
          .readEv (([] : List Nat).length + 1),
          .seekEv ((5 : Nat) : Int) 0]) ∧
    traceReadBytes
        [.seekEv 0 1, .seekEv (-1) 2, .readEv 1,
          .seekEv (-((([] : List Nat).length : Int) + 2)) 1,
          .readEv (([] : List Nat).length + 1),
          .seekEv ((5 : Nat) : Int) 0] =
      ([] : List Nat).length + 2 ∧
    traceSeekCount
        [.seekEv 0 1, .seekEv (-1) 2, .readEv 1,
          .seekEv (-((([] : List Nat).length : Int) + 2)) 1,
          .readEv (([] : List Nat).length + 1),
          .seekEv ((5 : Nat) : Int) 0] = 4 :=
  c5_parse_trailer_trace [9] [] 255 5 rfl rfl

/-- C5 counterexample: parsing the trailer of the two-byte NULL archive
`0xFF 0x00` (digest length `n = 0`) issues 4 `Seek` calls and reads 2 bytes,
not the claimed 3 seeks and `n+1 = 1` byte. -/
theorem c5_three_seeks_counterexample :
    (ParseTrailer ⟨[255, 0], 0⟩).2 =
      [.seekEv 0 1, .seekEv (-1) 2, .readEv 1, .seekEv (-2) 1, .readEv 1,
        .seekEv 0 0] ∧
    traceReadBytes (ParseTrailer ⟨[255, 0], 0⟩).2 = 2 ∧
    traceSeekCount (ParseTrailer ⟨[255, 0], 0⟩).2 = 4 ∧
    ¬(traceReadBytes (ParseTrailer ⟨[255, 0], 0⟩).2 = 0 + 1 ∧
      traceSeekCount (ParseTrailer ⟨[255, 0], 0⟩).2 = 3) := by
  decide

lemma readUvarintGo_cons (b : Nat) (rest : List Nat) (x s i : Nat)
    (hi : ¬ i = 10) :
    readUvarintGo (b :: rest) x s i =
      (if b < 0x80 then
        if i = 9 ∧ b > 1 then none
        else some (x + b * 2 ^ s, rest)
      else readUvarintGo rest (x + b % 0x80 * 2 ^ s) (s + 7) (i + 1)) := by
  rw [readUvarintGo, if_neg hi]

/-- The loop invariant of `ReadUvarint` against `PutUvarint`: starting at loop
index `i` with shift `s = 7i` and accumulator bits strictly below `2^s`, the
encoded bytes of `x` (with `x·2^s` still in `uint64` range) decode to
`acc + x·2^s` and leave the remainder untouched. -/
lemma readUvarintGo_putUvarint (x : Nat) : ∀ (acc s i : Nat) (rest : List Nat),
    s = 7 * i → i ≤ 9 → acc < 2 ^ s → x * 2 ^ s < 2 ^ 64 →
    readUvarintGo (putUvarint x ++ rest) acc s i =
      some (acc + x * 2 ^ s, rest) := by
  induction x using Nat.strong_induction_on with
  | _ x ih =>
    intro acc s i rest hs hi hacc hx
    by_cases hx128 : x < 0x80
    · rw [putUvarint, if_pos hx128, List.singleton_append,
        readUvarintGo_cons _ _ _ _ _ (by omega), if_pos hx128]
      have h9 : ¬(i = 9 ∧ x > 1) := by
        rintro ⟨h9, hgt⟩
        subst h9
        rw [hs] at hx
        norm_num at hx
        omega
      rw [if_neg h9]
    · rw [putUvarint, if_neg hx128, List.cons_append,
        readUvarintGo_cons _ _ _ _ _ (by omega),
        if_neg (show ¬ x % 0x80 + 0x80 < 0x80 by omega)]
      have hmod : (x % 0x80 + 0x80) % 0x80 = x % 0x80 := by omega
      rw [hmod]
      have hi1 : i + 1 ≤ 9 := by
        by_contra hcon
        have hi9 : i = 9 := by omega
        subst hi9
        rw [hs] at hx
        norm_num at hx
        omega
      have hacc1 : acc + x % 0x80 * 2 ^ s < 2 ^ (s + 7) := by
        calc acc + x % 0x80 * 2 ^ s
            < 2 ^ s + x % 0x80 * 2 ^ s := Nat.add_lt_add_right hacc _
          _ ≤ 2 ^ s + 127 * 2 ^ s := by
              have hb : x % 0x80 ≤ 127 := by omega
              have := Nat.mul_le_mul_right (2 ^ s) hb
              omega
          _ = 2 ^ (s + 7) := by
              rw [pow_add]
              ring
      have hx1 : x / 0x80 * 2 ^ (s + 7) < 2 ^ 64 := by
        calc x / 0x80 * 2 ^ (s + 7) = x / 0x80 * 0x80 * 2 ^ s := by
              rw [pow_add]
              ring
          _ ≤ x * 2 ^ s := Nat.mul_le_mul_right _ (Nat.div_mul_le_self x 0x80)
          _ < 2 ^ 64 := hx
      rw [ih (x / 0x80) (Nat.div_lt_self (by omega) (by omega))
        (acc + x % 0x80 * 2 ^ s) (s + 7) (i + 1) rest (by omega) hi1
        hacc1 hx1]
      have hsum : acc + x % 0x80 * 2 ^ s + x / 0x80 * 2 ^ (s + 7) =
          acc + x * 2 ^ s := by
        have hdm : x % 0x80 + 0x80 * (x / 0x80) = x := Nat.mod_add_div x 0x80
        calc acc + x % 0x80 * 2 ^ s + x / 0x80 * 2 ^ (s + 7)
            = acc + (x % 0x80 + 0x80 * (x / 0x80)) * 2 ^ s := by
              rw [pow_add]
              ring
          _ = acc + x * 2 ^ s := by rw [hdm]
      rw [hsum]

/-- `ReadUvarint` inverts `PutUvarint` for every `x < 2^64` and ignores the
following bytes. -/
lemma readUvarint_putUvarint (x : Nat) (rest : List Nat) (hx : x < 2 ^ 64) :
    readUvarint (putUvarint x ++ rest) = some (x, rest) := by
  have := readUvarintGo_putUvarint x 0 0 0 rest rfl (by omega) (by norm_num)
    (by simpa using hx)
  simpa [readUvarint] using this

/-- Writes through a `BlockWriter` never reach the underlying sink. -/
lemma bwFold_sink (writes : List (List Nat)) :
    ∀ st : BWState, (writes.foldl bwWrite st).sink = st.sink := by
  induction writes with
  | nil => intro st; rfl
  | cons w ws ih =>
    intro st
    rw [List.foldl_cons, ih]
    rfl

/-- C6: after any sequence of writes and a close, the sink holds exactly
`varint(len(compressed)) ‖ scheme ‖ compressed payload`, whose length is
`varint_size(len(payload)) + 1 + len(payload)` for the compressed payload;
nothing reaches the sink before the close; and `BlockReader` on that encoding
(with anything appended after the block) returns exactly the original
uncompressed bytes. -/
theorem c6_block_framing (fm : FlateModel) (scheme : Nat)
    (writes : List (List Nat)) (buf extra : List Nat)
    (hcomp : compressionCompress fm scheme
      (writes.foldl bwWrite bwInit).pending = some buf)
    (hdecomp : compressionDecompress fm scheme buf =
      some (writes.foldl bwWrite bwInit).pending)
    (hlen : buf.length ≤ 2 ^ 63 - 1) :
    (writes.foldl bwWrite bwInit).sink = [] ∧
    blockWriterClose fm scheme (writes.foldl bwWrite bwInit) =
      some (blockHeaderWrite buf.length scheme ++ buf) ∧
    (blockHeaderWrite buf.length scheme ++ buf).length =
      (putUvarint buf.length).length + 1 + buf.length ∧
    blockReaderRead fm (blockHeaderWrite buf.length scheme ++ buf ++ extra) =
      some (writes.foldl bwWrite bwInit).pending := by
  have hsch : compressionValid scheme = true := by
    by_cases h1 : scheme = 1
    · simp [compressionValid, h1]
    · by_cases h2 : scheme = 2
      · simp [compressionValid, h2]
      · simp [compressionCompress, h1, h2] at hcomp
  have hlen9 : buf.length ≤ 9223372036854775807 := by
    norm_num at hlen
    exact hlen
  refine ⟨(bwFold_sink writes bwInit).trans rfl, ?_, ?_, ?_⟩
  · rw [blockWriterClose, hcomp,
      show (List.foldl bwWrite bwInit writes).sink = [] from
        (bwFold_sink writes bwInit).trans rfl]
    rfl
  · simp [blockHeaderWrite]
    omega
  · have hb : buf.length < 2 ^ 64 := by
      have hlit : (9223372036854775807 : Nat) < 2 ^ 64 := by norm_num
      omega
    have hru := readUvarint_putUvarint buf.length (scheme :: (buf ++ extra)) hb
    have hshape : blockHeaderWrite buf.length scheme ++ buf ++ extra =
        putUvarint buf.length ++ (scheme :: (buf ++ extra)) := by
      simp [blockHeaderWrite]
    rw [blockReaderRead, blockHeaderRead, hshape, hru]
    simp [hsch, hlen9, List.take_left, hdecomp]

theorem c6_block_framing_witness :
    (([[1, 2], [3]] : List (List Nat)).foldl bwWrite bwInit).sink = [] ∧
    blockWriterClose ⟨fun b => b, fun b => b⟩ 1
        (([[1, 2], [3]] : List (List Nat)).foldl bwWrite bwInit) =
      some (blockHeaderWrite [1, 2, 3].length 1 ++ [1, 2, 3]) ∧
    (blockHeaderWrite [1, 2, 3].length 1 ++ [1, 2, 3]).length =
      (putUvarint [1, 2, 3].length).length + 1 + [1, 2, 3].length ∧
    blockReaderRead ⟨fun b => b, fun b => b⟩
        (blockHeaderWrite [1, 2, 3].length 1 ++ [1, 2, 3] ++ [9]) =
      some (([[1, 2], [3]] : List (List Nat)).foldl bwWrite bwInit).pending :=
  c6_block_framing ⟨fun b => b, fun b => b⟩ 1 [[1, 2], [3]] [1, 2, 3] [9]
    rfl rfl (by norm_num)

/-- Taking a prefix of the updated path buffer (`path.take n ++ [x]`) agrees
with the original path on every index `k ≤ n`, provided the path is long
enough to be truncated exactly. -/
lemma take_path_update (path : List String) (x : String) (n k : Nat)
    (hk : k ≤ n) (hn : n ≤ path.length) :
    (path.take n ++ [x]).take k = path.take k := by
  rw [List.take_append_of_le_length (by simp [List.length_take]; omega),
    List.take_take, Nat.min_eq_left hk]

/-- `stackSeq` only inspects path prefixes strictly below the stack depth. -/
lemma stackSeq_congr (stack : List (List Entry)) :
    ∀ path1 path2 : List String,
      (∀ k, k < stack.length → path1.take k = path2.take k) →
      stackSeq path1 stack = stackSeq path2 stack := by
  induction stack with
  | nil =>
    intro _ _ _
    rfl
  | cons node stack ih =>
    intro path1 path2 h
    simp only [stackSeq]
    rw [h stack.length (by simp),
      ih path1 path2 (fun k hk => h k (by simp; omega))]

/-- The stack loop of `LoopItems` visits exactly the pending depth-first
sequence of its stack, with the same early-exit behaviour as folding the
callback over that sequence. -/
lemma loopGo_eq_stackSeq {ε : Type} (cb : List String → Entry → Except ε Unit) :
    ∀ (N : Nat) (stack : List (List Entry)) (path : List String),
      2 * stackWeight stack + stack.length ≤ N →
      stack.length ≤ path.length + 1 →
      TOC.loopGo cb path stack = visitSeq cb (stackSeq path stack) := by
  intro N
  induction N with
  | zero =>
    intro stack path hm hp
    cases stack with
    | nil => simp [TOC.loopGo, stackSeq, visitSeq]
    | cons node stack =>
      exfalso
      simp only [List.length_cons] at hm
      omega
  | succ N ih =>
    intro stack path hm hp
    match stack with
    | [] => simp [TOC.loopGo, stackSeq, visitSeq]
    | [] :: stack =>
      simp only [stackWeight, weightList, List.length_cons] at hm
      simp only [List.length_cons] at hp
      rw [show TOC.loopGo cb path ([] :: stack) = TOC.loopGo cb path stack
          from by simp [TOC.loopGo]]
      rw [ih stack path (by omega) (by omega)]
      simp [stackSeq, preorder]
    | (e :: rest) :: stack =>
      have hsl : stack.length ≤ path.length := by
        simp only [List.length_cons] at hp
        omega
      cases e with
      | tree nm sub =>
        have hw : 2 * stackWeight (sub :: rest :: stack) +
            (sub :: rest :: stack).length ≤ N := by
          simp only [stackWeight, weightList, Entry.weight,
            List.length_cons] at hm ⊢
          omega
        have hp2 : (sub :: rest :: stack).length ≤
            (path.take stack.length ++ [nm]).length + 1 := by
          simp only [List.length_cons, List.length_append, List.length_take,
            List.length_cons, List.length_nil]
          omega
        have hih := ih (sub :: rest :: stack)
          (path.take stack.length ++ [nm]) hw hp2
        have ht1 : (path.take stack.length ++ [nm]).take
            (stack.length + 1) = path.take stack.length ++ [nm] := by
          apply List.take_of_length_le
          simp only [List.length_cons, List.length_append, List.length_take,
            List.length_nil]
          omega
        have ht2 : (path.take stack.length ++ [nm]).take stack.length =
            path.take stack.length :=
          take_path_update path nm stack.length stack.length le_rfl hsl
        have ht3 : stackSeq (path.take stack.length ++ [nm]) stack =
            stackSeq path stack :=
          stackSeq_congr stack _ path
            (fun k hk => take_path_update path nm stack.length k (by omega) hsl)
        rw [show stackSeq (path.take stack.length ++ [nm])
            (sub :: rest :: stack) =
            preorder (path.take stack.length ++ [nm]) sub ++
              (preorder (path.take stack.length) rest ++
                stackSeq path stack) from by
          simp only [stackSeq, List.length_cons]
          rw [ht1, ht2, ht3]] at hih
        cases hcb : cb (path.take stack.length ++ [nm])
            (Entry.tree nm sub) with
        | error err =>
          rw [show TOC.loopGo cb path ((Entry.tree nm sub :: rest) :: stack) =
              .error err from by simp [TOC.loopGo, Entry.name, hcb]]
          rw [show visitSeq cb
              (stackSeq path ((Entry.tree nm sub :: rest) :: stack)) =
              .error err from by
            simp [stackSeq, preorder, preorderChildren, visitSeq,
              Entry.name, hcb]]
        | ok u =>
          rw [show TOC.loopGo cb path ((Entry.tree nm sub :: rest) :: stack) =
              TOC.loopGo cb (path.take stack.length ++ [nm])
                (sub :: rest :: stack) from by
            simp [TOC.loopGo, Entry.name, hcb]]
          rw [hih]
          simp only [stackSeq, preorder, preorderChildren, Entry.name,
            List.cons_append, List.append_assoc, List.nil_append]
          rw [show visitSeq cb ((path.take stack.length ++ [nm],
              Entry.tree nm sub) ::
              (preorder (path.take stack.length ++ [nm]) sub ++
                (preorder (path.take stack.length) rest ++
                  stackSeq path stack))) =
              visitSeq cb (preorder (path.take stack.length ++ [nm]) sub ++
                (preorder (path.take stack.length) rest ++
                  stackSeq path stack)) from by simp [visitSeq, hcb]]
      | file nm f =>
        have hw : 2 * stackWeight (rest :: stack) +
            (rest :: stack).length ≤ N := by
          simp only [stackWeight, weightList, Entry.weight,
            List.length_cons] at hm ⊢
          omega
        have hp2 : (rest :: stack).length ≤
            (path.take stack.length ++ [nm]).length + 1 := by
          simp only [List.length_cons, List.length_append, List.length_take,
            List.length_nil]
          omega
        have hih := ih (rest :: stack) (path.take stack.length ++ [nm]) hw hp2
        have ht2 : (path.take stack.length ++ [nm]).take stack.length =
            path.take stack.length :=
          take_path_update path nm stack.length stack.length le_rfl hsl
        have ht3 : stackSeq (path.take stack.length ++ [nm]) stack =
            stackSeq path stack :=
          stackSeq_congr stack _ path
            (fun k hk => take_path_update path nm stack.length k (by omega) hsl)
        rw [show stackSeq (path.take stack.length ++ [nm]) (rest :: stack) =
            preorder (path.take stack.length) rest ++ stackSeq path stack
            from by
          simp only [stackSeq, List.length_cons]
          rw [ht2, ht3]] at hih
        cases hcb : cb (path.take stack.length ++ [nm])
            (Entry.file nm f) with
        | error err =>
          rw [show TOC.loopGo cb path ((Entry.file nm f :: rest) :: stack) =
              .error err from by simp [TOC.loopGo, Entry.name, hcb]]
          rw [show visitSeq cb
              (stackSeq path ((Entry.file nm f :: rest) :: stack)) =
              .error err from by
            simp [stackSeq, preorder, preorderChildren, visitSeq,
              Entry.name, hcb]]
        | ok u =>
          rw [show TOC.loopGo cb path ((Entry.file nm f :: rest) :: stack) =
              TOC.loopGo cb (path.take stack.length ++ [nm])
                (rest :: stack) from by simp [TOC.loopGo, Entry.name, hcb]]
          rw [hih]
          simp only [stackSeq, preorder, preorderChildren, Entry.name,
            List.cons_append, List.append_assoc, List.nil_append]
          rw [show visitSeq cb ((path.take stack.length ++ [nm],
              Entry.file nm f) ::
              (preorder (path.take stack.length) rest ++
                stackSeq path stack)) =
              visitSeq cb (preorder (path.take stack.length) rest ++
                stackSeq path stack) from by simp [visitSeq, hcb]]
      | symlink nm s =>
        have hw : 2 * stackWeight (rest :: stack) +
            (rest :: stack).length ≤ N := by
          simp only [stackWeight, weightList, Entry.weight,
            List.length_cons] at hm ⊢
          omega
        have hp2 : (rest :: stack).length ≤
            (path.take stack.length ++ [nm]).length + 1 := by
          simp only [List.length_cons, List.length_append, List.length_take,
            List.length_nil]
          omega
        have hih := ih (rest :: stack) (path.take stack.length ++ [nm]) hw hp2
        have ht2 : (path.take stack.length ++ [nm]).take stack.length =
            path.take stack.length :=
          take_path_update path nm stack.length stack.length le_rfl hsl
        have ht3 : stackSeq (path.take stack.length ++ [nm]) stack =
            stackSeq path stack :=
          stackSeq_congr stack _ path
            (fun k hk => take_path_update path nm stack.length k (by omega) hsl)
        rw [show stackSeq (path.take stack.length ++ [nm]) (rest :: stack) =
            preorder (path.take stack.length) rest ++ stackSeq path stack
            from by
          simp only [stackSeq, List.length_cons]
          rw [ht2, ht3]] at hih
        cases hcb : cb (path.take stack.length ++ [nm])
            (Entry.symlink nm s) with
        | error err =>
          rw [show TOC.loopGo cb path
              ((Entry.symlink nm s :: rest) :: stack) =
              .error err from by simp [TOC.loopGo, Entry.name, hcb]]
          rw [show visitSeq cb
              (stackSeq path ((Entry.symlink nm s :: rest) :: stack)) =
              .error err from by
            simp [stackSeq, preorder, preorderChildren, visitSeq,
              Entry.name, hcb]]
        | ok u =>
          rw [show TOC.loopGo cb path
              ((Entry.symlink nm s :: rest) :: stack) =
              TOC.loopGo cb (path.take stack.length ++ [nm])
                (rest :: stack) from by simp [TOC.loopGo, Entry.name, hcb]]
          rw [hih]
          simp only [stackSeq, preorder, preorderChildren, Entry.name,
            List.cons_append, List.append_assoc, List.nil_append]
          rw [show visitSeq cb ((path.take stack.length ++ [nm],
              Entry.symlink nm s) ::
              (preorder (path.take stack.length) rest ++
                stackSeq path stack)) =
              visitSeq cb (preorder (path.take stack.length) rest ++
                stackSeq path stack) from by simp [visitSeq, hcb]]

/-- C9: `LoopItems` equals folding the callback over the depth-first
pre-order sequence of the TOC — every entry is visited exactly once, each
directory before its children, siblings in declared order, the callback
receiving the entry's path as its sequence of name components; a callback
error aborts the traversal and becomes the return value, otherwise the result
is nil. -/
theorem c9_loopitems_preorder {ε : Type} (t : TOC)
    (cb : List String → Entry → Except ε Unit) :
    t.LoopItems cb = visitSeq cb (preorder [] t.root) := by
  rw [TOC.LoopItems,
    loopGo_eq_stackSeq cb (2 * stackWeight [t.root] + 1) [t.root] []
      (le_refl _) (by simp)]
  simp [stackSeq]

end Sarchive
